import Mathlib

/-!
Verification of the dependency-resolver repository.

This file shallowly embeds the Python sources under `src/`
(`db_client.py`, `graph_builder.py`, `resolver.py`, `main.py`,
`input_validator.py`) and settles the frozen claims about them.

Modelling conventions:
* Machinery that the sources delegate to the external `packaging`
  library (PEP-440 versions, specifier sets, PEP-508 requirements) is
  embedded as the fragment the sources actually exercise: a total order
  on parsed versions, a pre-release flag, and membership of a version in
  a specifier set with an explicit `prereleases` switch.  The zero-padding
  equivalence of release segments (`1.0` vs `1.0.0`) and the same-base
  pre-release refinements of the `<`/`>` operators are not modelled; no
  claim depends on them.
* Python dicts are embedded as insertion-ordered association lists with
  replace-in-place update, which is the observable dict semantics.
* Python exceptions are embedded as explicit result constructors; the
  sources catch only `ConflictError`, so other exceptions (`KeyError`,
  `TypeError`) propagate to the top as a distinct outcome.
* Unbounded Python recursion is embedded with a fuel parameter.
* The `stats` counters (`steps`, `backtracks`) are pure bookkeeping with
  no effect on control flow and are not modelled; exception message
  strings are likewise not modelled, only the structured payloads
  (`package`, `constraint`) that the claims mention.
-/

/-- A parsed PEP-440 version as the resolver observes it: the dotted
release segment and an optional pre-release marker (`some n` for a
pre-release numbered `n`, `none` for a final release). -/
structure PVersion where
  rel : List Nat
  pre : Option Nat
deriving DecidableEq, Repr

/-- `is_prerelease` of `packaging.version.Version`. -/
def PVersion.isPre (v : PVersion) : Bool := v.pre.isSome

/-- The sort key realising the PEP-440 total order on the modelled
fragment: release segment lexicographically, then pre-releases before the
final release (`1.0a1 < 1.0`), pre-releases ordered by number. -/
def PVersion.key (v : PVersion) : Lex ((List Nat) × Lex (Bool × Nat)) :=
  toLex (v.rel, toLex (match v.pre with
    | none => (true, 0)
    | some n => (false, n)))

/-- Non-strict version order `v ≤ w`. -/
def verLe (v w : PVersion) : Bool := decide (PVersion.key v ≤ PVersion.key w)

theorem verLe_total (v w : PVersion) : verLe v w = true ∨ verLe w v = true := by
  simp only [verLe, decide_eq_true_eq]
  exact le_total _ _

theorem verLe_trans {u v w : PVersion} (h1 : verLe u v = true)
    (h2 : verLe v w = true) : verLe u w = true := by
  simp only [verLe, decide_eq_true_eq] at h1 h2 ⊢
  exact le_trans h1 h2

/-- A PEP-440 comparison operator (`===` arbitrary equality and wildcard
`==` forms are not used by any claim and are not modelled). -/
inductive SpecOp where
  | eq | ne | lt | le | gt | ge
deriving DecidableEq, Repr

/-- One specifier `<op> <version>`. -/
structure Spec where
  op : SpecOp
  ver : PVersion
deriving DecidableEq, Repr

/-- A `SpecifierSet`: the conjunction of its member specifiers.  The
empty list is the universal set (`SpecifierSet("")`). -/
abbrev SpecSet := List Spec

/-- Operator test of a single specifier against a version
(`packaging.specifiers.Specifier` with pre-releases allowed). -/
def specHolds (s : Spec) (v : PVersion) : Bool :=
  match s.op with
  | .eq => decide (v = s.ver)
  | .ne => decide (v ≠ s.ver)
  | .lt => decide (v.key < s.ver.key)
  | .le => decide (v.key ≤ s.ver.key)
  | .gt => decide (s.ver.key < v.key)
  | .ge => decide (s.ver.key ≤ v.key)

/-- `SpecifierSet.contains(version, prereleases=...)` with an explicit
`prereleases` argument, as both call sites in the sources use it: a
pre-release is rejected outright when `prereleases` is `false`;
otherwise the version must satisfy every member specifier. -/
def ssContains (ss : SpecSet) (v : PVersion) (prereleases : Bool) : Bool :=
  if v.isPre && !prereleases then false
  else ss.all (fun s => specHolds s v)

/-- Intersection of specifier sets as the sources build it:
`SpecifierSet(f"{a},{b}")` reparses to the union of the member
specifiers of `a` and `b`. -/
def ssIntersect (a b : SpecSet) : SpecSet := a ++ b

/-- A raw `requires_dist` entry string, carried together with how the
PEP-508 parser (`packaging.requirements.Requirement`) classifies it:
either unparseable, or a requirement with a (pre-canonical) name, a
specifier set, and an optional environment marker.  A marker is embedded
as its evaluation function over the only bound variables
(`python_version`/`python_full_version`, both set to the target
interpreter version). -/
inductive RawReq where
  | invalid (s : String)
  | parsed (name : String) (spec : SpecSet) (marker : Option (PVersion → Bool))

/-- The value stored in the `requires_dist` column of one row, classified
by how `db_client.DBClient.get_dependencies` (src/db_client.py:73-89)
consumes it: SQL `NULL`, the empty string, a JSON array of requirement
strings, the literal JSON token `null`, or a non-JSON raw string (for
which `json.loads` raises and the code returns the one-element list). -/
inductive DistCol where
  | sqlNull
  | empty
  | arr (xs : List RawReq)
  | nullTok
  | raw (x : RawReq)

/-- The value stored in the `requires_python` column of one row,
classified by how `_sql_version_match` (src/db_client.py:37-53) consumes
it: SQL `NULL`, the empty string, a parseable specifier set, the literal
token `null` (unparseable, `InvalidSpecifier`), or any other unparseable
string. -/
inductive PyCol where
  | sqlNull
  | empty
  | spec (ss : SpecSet)
  | nullTok
  | invalid (s : String)

/-- One row of the `projects` table: name, raw version string, the two
metadata columns, and the truthiness of the `yanked` column. -/
structure Row where
  name : String
  version : String
  requires_dist : DistCol
  requires_python : PyCol
  yanked : Bool

/-- The metadata database: the rows of the `projects` table in table
order, together with the `packaging.version.Version` parse oracle for
version strings (`none` models `InvalidVersion`), which the provider
applies to the stored version strings (src/graph_builder.py:48-53). -/
structure Store where
  rows : List Row
  parseVersion : String → Option PVersion

/-- Python `str.lower()`, implemented over the character list so that
concrete instances reduce inside the kernel. -/
def pyLower (s : String) : String := String.mk (s.data.map Char.toLower)

/-- The row lookup `WHERE LOWER(name) = ? AND version = ?` followed by
`fetchone()`: the first matching row, with the caller's package name
lowercased (`package.lower()`), as all three per-release queries of
`DBClient` issue it. -/
def findRelease (st : Store) (package version : String) : Option Row :=
  st.rows.find? (fun r => pyLower r.name = pyLower package && r.version = version)

/-- `DBClient.get_available_versions` (src/db_client.py:57-69): the
version strings of all rows whose lowercased name matches, in table
order. -/
def getAvailableVersions (st : Store) (package : String) : List String :=
  (st.rows.filter (fun r => pyLower r.name = pyLower package)).map (·.version)

/-- `DBClient.get_dependencies` (src/db_client.py:73-89).  The result is
`some xs` when the Python function returns the list `xs`, and `none` when
it returns the non-list value `None` — which happens exactly when the
stored column is the literal JSON token `null`, since
`json.loads("null")` is `None` and the code returns it unchecked. -/
def dbGetDependencies (st : Store) (package version : String) : Option (List RawReq) :=
  match findRelease st package version with
  | none => some []
  | some r =>
    match r.requires_dist with
    | .sqlNull => some []
    | .empty => some []
    | .arr xs => some xs
    | .nullTok => none
    | .raw x => some [x]

/-- `DBClient.python_version_satisfies_package` (src/db_client.py:134-163)
with the target interpreter version already parsed (the validator
guarantees it parses): `true` when the release is absent or the column is
SQL `NULL` or empty; otherwise the `version_match` SQL function, which
returns `0` for any unparseable specifier string — including the literal
token `null` — and otherwise tests containment with `prereleases=True`. -/
def dbPythonSatisfies (st : Store) (package version : String) (py : PVersion) : Bool :=
  match findRelease st package version with
  | none => true
  | some r =>
    match r.requires_python with
    | .sqlNull => true
    | .empty => true
    | .spec ss => ssContains ss py true
    | .nullTok => false
    | .invalid _ => false

/-- `DBClient.is_yanked` (src/db_client.py:166-189): the truthiness of
the `yanked` column of the first matching row, `false` when the release
is absent. -/
def isYanked (st : Store) (package version : String) : Bool :=
  match findRelease st package version with
  | none => false
  | some r => r.yanked

/-- A candidate dict as `GraphBuilder.get_candidate_versions` builds it
(src/graph_builder.py:70-75), with exactly the four keys the source
writes: `package` (lowercased name), `version_obj` (parsed version),
`version` (the raw version string), `is_yanked`. -/
structure Candidate where
  package : String
  version_obj : PVersion
  version : String
  is_yanked : Bool
deriving DecidableEq, Repr

/-- A Python value stored in a candidate dict. -/
inductive CVal where
  | str (s : String)
  | ver (v : PVersion)
  | bool (b : Bool)
deriving DecidableEq, Repr

/-- String-keyed dict access on a candidate dict, as the resolver
performs it: `some` for the four keys the provider writes, `none`
(`KeyError`) for every other key — in particular for `version_str`
(src/resolver.py:119,227,287) and `vulnerabilities`
(src/resolver.py:289), which none of the provider's code ever sets. -/
def Candidate.get (c : Candidate) : String → Option CVal
  | "package" => some (.str c.package)
  | "version_obj" => some (.ver c.version_obj)
  | "version" => some (.str c.version)
  | "is_yanked" => some (.bool c.is_yanked)
  | _ => none

/-- Extract a string value. -/
def CVal.asStr : CVal → Option String
  | .str s => some s
  | _ => none

/-- The per-version body of the candidate loop in
`GraphBuilder.get_candidate_versions` (src/graph_builder.py:46-76):
parse the stored version string (skip on `InvalidVersion`), keep it only
if the specifier set contains it **with `prereleases=True`**
(src/graph_builder.py:56), then — only when a target interpreter version
is configured — keep it only if `requires_python` admits that
interpreter, and finally attach the yanked flag. -/
def candidateOfVersion (st : Store) (python : Option PVersion)
    (packageName : String) (ss : SpecSet) (vs : String) : Option Candidate :=
  match st.parseVersion vs with
  | none => none
  | some vobj =>
    if !ssContains ss vobj true then none
    else
      match python with
      | some py =>
        if !dbPythonSatisfies st packageName vs py then none
        else some ⟨pyLower packageName, vobj, vs, isYanked st packageName vs⟩
      | none => some ⟨pyLower packageName, vobj, vs, isYanked st packageName vs⟩

/-- Sort relation of `candidates.sort(key=lambda x: x['version_obj'],
reverse=True)` (src/graph_builder.py:79): `a` may stay before `b` iff
`b`'s version is at most `a`'s; with a stable sort this is descending
version order preserving the original order of equal versions. -/
def verDescRel (a b : Candidate) : Prop := verLe b.version_obj a.version_obj = true

/-- Sort relation of `candidates.sort(key=lambda x: x['is_yanked'])`
(src/graph_builder.py:80): `a` may stay before `b` unless `a` is yanked
and `b` is not; with a stable sort this is the stable partition moving
yanked candidates last. -/
def yankRel (a b : Candidate) : Prop := (!a.is_yanked || b.is_yanked) = true

instance : DecidableRel verDescRel := fun a b => by
  unfold verDescRel; infer_instance

instance : DecidableRel yankRel := fun a b => by
  unfold yankRel; infer_instance

instance : IsTotal Candidate verDescRel where
  total a b := (verLe_total b.version_obj a.version_obj).elim Or.inl Or.inr

instance : IsTrans Candidate verDescRel where
  trans _ _ _ h1 h2 := verLe_trans h2 h1

instance : IsTotal Candidate yankRel where
  total a b := by
    unfold yankRel
    cases ha : a.is_yanked <;> cases hb : b.is_yanked <;> simp

instance : IsTrans Candidate yankRel where
  trans a b c h1 h2 := by
    unfold yankRel at h1 h2 ⊢
    cases ha : a.is_yanked <;> cases hb : b.is_yanked <;>
      cases hc : c.is_yanked <;> simp_all

/-- `GraphBuilder.get_candidate_versions` (src/graph_builder.py:33-86):
fetch the version strings, filter and decorate them, sort by version
descending then stably by the yanked flag, and prune to
`max_versions_per_package` when that cap is set (truthy) and the list is
longer than it.  `python` is the (parsed) `python_version` of the
builder, `maxV` its `max_versions_per_package`. -/
def getCandidateVersions (st : Store) (python : Option PVersion)
    (maxV : Option Nat) (packageName : String) (specifierSet : Option SpecSet) :
    List Candidate :=
  let ss := specifierSet.getD []
  let cands := (getAvailableVersions st packageName).filterMap
    (candidateOfVersion st python packageName ss)
  let sorted := List.insertionSort yankRel (List.insertionSort verDescRel cands)
  match maxV with
  | some m => if m ≠ 0 && decide (sorted.length > m) then sorted.take m else sorted
  | none => sorted

/-- `GraphBuilder.get_dependencies` (src/graph_builder.py:90-135): fetch
the raw `requires_dist` entries (`.error` models the `TypeError` of
iterating the `None` that `DBClient.get_dependencies` returns for a
literal `null` column), then for each entry: skip it if parsing raises
(src/graph_builder.py:130-133); if it carries a marker and a target
interpreter is configured, skip it when the marker evaluates false;
in universal mode (no interpreter) accept it unconditionally
(src/graph_builder.py:122-126); emit `(req.name.lower(), req.specifier)`. -/
def gbGetDependencies (st : Store) (python : Option PVersion)
    (packageName version : String) : Except String (List (String × SpecSet)) :=
  match dbGetDependencies st packageName version with
  | none => .error "TypeError"
  | some raws =>
    .ok (raws.filterMap (fun raw =>
      match raw with
      | .invalid _ => none
      | .parsed name spec marker =>
        match marker, python with
        | some m, some py => if m py then some (pyLower name, spec) else none
        | _, _ => some (pyLower name, spec)))

/-- Separator characters collapsed by PEP-503 canonicalization. -/
def isSepChar (c : Char) : Bool := c = '-' || c = '_' || c = '.'

/-- Character-level worker for `canonicalize_name`: replace every run of
`-`/`_`/`.` by a single `-` and lowercase everything else.  The Boolean
records whether the previous character belonged to a separator run. -/
def canonAux : Bool → List Char → List Char
  | _, [] => []
  | inSep, c :: rest =>
    if isSepChar c then
      if inSep then canonAux true rest
      else '-' :: canonAux true rest
    else c.toLower :: canonAux false rest

/-- `packaging.utils.canonicalize_name`:
`re.sub(r"[-_.]+", "-", name).lower()`. -/
def canonicalizeName (s : String) : String :=
  String.mk (canonAux false s.data)

/-- A Python dict as an insertion-ordered association list. -/
abbrev Dict (β : Type) := List (String × β)

/-- Dict lookup `d[k]` (`none` is a `KeyError`). -/
def dget {β : Type} (d : Dict β) (k : String) : Option β :=
  (d.find? (fun p => p.1 = k)).map (·.2)

/-- Dict membership `k in d`. -/
def dmem {β : Type} (d : Dict β) (k : String) : Bool :=
  (d.find? (fun p => p.1 = k)).isSome

/-- Dict assignment `d[k] = v`: replace in place when the key exists,
append otherwise — the observable semantics of a Python dict update. -/
def dinsert {β : Type} : Dict β → String → β → Dict β
  | [], k, v => [(k, v)]
  | (k', v') :: rest, k, v =>
    if k' = k then (k, v) :: rest else (k', v') :: dinsert rest k v

/-- A raised `ConflictError` (src/resolver.py:7-17): its structured
payloads.  Message strings are not modelled. -/
inductive ConflictE where
  | mk (package : Option String) (constraint : Option SpecSet)
       (parent : Option ConflictE)

/-- The `package` payload. -/
def ConflictE.package : ConflictE → Option String
  | .mk p _ _ => p

/-- The `constraint` payload. -/
def ConflictE.constraint : ConflictE → Option SpecSet
  | .mk _ c _ => c

/-- Outcome of one call to `Resolver._backtracking`: a successful
assignment, a propagating `ConflictError`, a propagating non-conflict
exception (`KeyError`/`TypeError`, carried with the offending key), or
fuel exhaustion of the embedding. -/
inductive BRes where
  | ok (a : Dict Candidate)
  | conflict (e : ConflictE)
  | exc (key : String)
  | fuelOut

/-- The body of the dependency loop of `Resolver._backtracking`
(src/resolver.py:126-159), for one candidate: walk the dependency list,
canonicalize each name; if the dependency is already assigned, raise a
`ConflictError` (with no `package`/`constraint` payload,
src/resolver.py:140-142) unless the assigned version satisfies the
dependency specifier under `contains(..., prereleases=False)`
(src/resolver.py:138); then merge the specifier into the constraint map
(intersection when the name is present, fresh entry otherwise), and
record names that are neither assigned nor constrained yet as new todo
entries. -/
def processDeps (assignments : Dict Candidate) :
    List (String × SpecSet) → Dict SpecSet → List String →
    Except ConflictE (Dict SpecSet × List String)
  | [], constraints, additions => .ok (constraints, additions)
  | (dn0, dspec) :: rest, constraints, additions =>
    let dn := canonicalizeName dn0
    match dget assignments dn with
    | some assigned =>
      if !ssContains dspec assigned.version_obj false then
        .error (.mk none none none)
      else
        -- an assigned package is necessarily already constrained, and
        -- src/resolver.py:158 re-checks `not in assignments` anyway
        let constraints' :=
          match dget constraints dn with
          | some cur => dinsert constraints dn (ssIntersect cur dspec)
          | none => dinsert constraints dn dspec
        processDeps assignments rest constraints' additions
    | none =>
      match dget constraints dn with
      | some cur =>
        processDeps assignments rest
          (dinsert constraints dn (ssIntersect cur dspec)) additions
      | none =>
        processDeps assignments rest (dinsert constraints dn dspec)
          (additions ++ [dn])

/-- The candidate count `_select_mrv_package` computes for one package
(src/resolver.py:198-201): `constraints.get(package, SpecifierSet(""))`
then `len(self.gb.get_candidate_versions(package, spec))`. -/
def mrvCount (st : Store) (python : Option PVersion) (maxV : Option Nat)
    (constraints : Dict SpecSet) (p : String) : Nat :=
  (getCandidateVersions st python maxV p (some ((dget constraints p).getD []))).length

/-- The `(best_pkg, min_candidates)` update of the MRV loop
(src/resolver.py:207-210): the running best starts as `None`
(`min_candidates` infinite), and is replaced only when the new count is
strictly smaller. -/
def mrvBest (p : String) (count : Nat) : Option (String × Nat) → Option (String × Nat)
  | none => some (p, count)
  | some (bp, bc) => if count < bc then some (p, count) else some (bp, bc)

/-- `Resolver._select_mrv_package` (src/resolver.py:186-212), loop over
the todo list with state `(best_pkg, min_candidates)`: return the first
package whose candidate count is zero (fail-fast), otherwise update the
running best and return it at the end of the list. -/
def selectMrvAux (st : Store) (python : Option PVersion) (maxV : Option Nat)
    (constraints : Dict SpecSet) :
    List String → Option (String × Nat) → Option String
  | [], best => best.map (·.1)
  | p :: rest, best =>
    if mrvCount st python maxV constraints p = 0 then some p
    else selectMrvAux st python maxV constraints rest
      (mrvBest p (mrvCount st python maxV constraints p) best)

/-- `Resolver._select_mrv_package` entry point: `best_pkg` starts as
`None`, `min_candidates` as infinity. -/
def selectMrv (st : Store) (python : Option PVersion) (maxV : Option Nat)
    (todoList : List String) (constraints : Dict SpecSet) : Option String :=
  selectMrvAux st python maxV constraints todoList none

/-- The candidate loop of `Resolver._backtracking`
(src/resolver.py:115-182), abstracted over the recursive call (`recurse`
is `self._backtracking` at one fuel less).  For each candidate, the
source first reads `candidate['version_str']` (src/resolver.py:119)
*outside* the `try` — a key the provider never writes, so this access
raises `KeyError`.  Inside the `try`, dependencies are fetched and
checked; a `ConflictError` (from the checks or from the recursive call)
is caught and the loop continues with the next candidate, remembering it
as `last_error`; any other exception propagates.  When the loop
exhausts, a `ConflictError` with no `package`/`constraint` payload and
`parent_error=last_error` is raised (src/resolver.py:179-182). -/
def tryCandidates (st : Store) (python : Option PVersion)
    (recurse : Dict Candidate → Dict SpecSet → List String → BRes)
    (assignments : Dict Candidate) (constraints : Dict SpecSet)
    (packageToSolve : String) (newTodoList : List String) :
    List Candidate → Option ConflictE → BRes
  | [], lastError => .conflict (.mk none none lastError)
  | cand :: rest, _lastError =>
    match (cand.get "version_str").bind CVal.asStr with
    | none => .exc "version_str"
    | some versionStr =>
      match gbGetDependencies st python packageToSolve versionStr with
      | .error e => .exc e
      | .ok dependencies =>
        match processDeps assignments dependencies constraints [] with
        | .error e =>
          tryCandidates st python recurse assignments constraints
            packageToSolve newTodoList rest (some e)
        | .ok (newConstraints, newTodoAdditions) =>
          let newAssignments := dinsert assignments packageToSolve cand
          let nextTodo := newTodoList ++
            newTodoAdditions.filter (fun p => decide (p ∉ newTodoList))
          match recurse newAssignments newConstraints nextTodo with
          | .ok s => .ok s
          | .conflict e =>
            tryCandidates st python recurse assignments constraints
              packageToSolve newTodoList rest (some e)
          | .exc k => .exc k
          | .fuelOut => .fuelOut

/-- `Resolver._backtracking` (src/resolver.py:82-182): success when the
todo list is empty; otherwise select the MRV package, look up its
accumulated constraint, fetch its candidates, raise
`ConflictError(package=p, constraint=spec)` when there are none
(src/resolver.py:105-113), and otherwise run the candidate loop.  The
`exc` outcomes for a `None` MRV result or a missing constraint key model
the `KeyError` that `constraints[package_to_solve]` would raise; both
are unreachable from `resolve`. -/
def backtracking (st : Store) (python : Option PVersion) (maxV : Option Nat) :
    Nat → Dict Candidate → Dict SpecSet → List String → BRes
  | 0, _, _, _ => .fuelOut
  | Nat.succ fuel, assignments, constraints, todoList =>
    if todoList.isEmpty then .ok assignments
    else
      match selectMrv st python maxV todoList constraints with
      | none => .exc "KeyError-None"
      | some packageToSolve =>
        let newTodoList := todoList.filter (fun p => decide (p ≠ packageToSolve))
        match dget constraints packageToSolve with
        | none => .exc packageToSolve
        | some requiredSpec =>
          let candidates :=
            getCandidateVersions st python maxV packageToSolve (some requiredSpec)
          if candidates.isEmpty then
            .conflict (.mk (some packageToSolve) (some requiredSpec) none)
          else
            tryCandidates st python (backtracking st python maxV fuel)
              assignments constraints packageToSolve newTodoList candidates none

/-- The DFS worker of `Resolver._topological_sort`
(src/resolver.py:246-263), fuelled: skip visited or on-stack nodes
(the latter silently breaks a cycle), otherwise visit the node's
dependencies first, then mark the node visited and append it to the
order.  The state is `(visited, order)`; the on-stack set is the `temp`
parameter, which grows going down and is restored by scoping. -/
def dfsVisit (graph : Dict (List String)) :
    Nat → String → List String → List String × List String →
    List String × List String
  | 0, _, _, state => state
  | Nat.succ fuel, node, temp, (visited, order) =>
    if node ∈ visited then (visited, order)
    else if node ∈ temp then (visited, order)
    else
      let deps := (dget graph node).getD []
      let state := deps.foldl
        (fun s d => dfsVisit graph fuel d (node :: temp) s) (visited, order)
      (node :: state.1, state.2 ++ [node])

/-- The graph-building half of `Resolver._topological_sort`
(src/resolver.py:222-240): one adjacency entry per assigned package;
for each package, re-read `data['version_str']` (src/resolver.py:227) —
which raises `KeyError`, since the provider stores the string under
`version` — then re-query the chosen release's dependencies and keep the
canonicalized names that are themselves assigned.  The Python adjacency
sets are modelled as duplicate-free lists in first-insertion order (the
iteration order of a Python set is unspecified; no claim observes it). -/
def buildSolutionGraph (st : Store) (python : Option PVersion)
    (assignments : Dict Candidate) : Except String (Dict (List String)) :=
  let graph0 : Dict (List String) := assignments.map (fun p => (p.1, []))
  assignments.foldlM (fun graph p =>
    match (p.2.get "version_str").bind CVal.asStr with
    | none => .error "version_str"
    | some versionStr =>
      match gbGetDependencies st python p.1 versionStr with
      | .error e => .error e
      | .ok deps =>
        let names := (deps.map (fun d => canonicalizeName d.1)).filter
          (fun d => dmem graph0 d)
        .ok (dinsert graph p.1
          (names.foldl (fun acc d => if d ∈ acc then acc else acc ++ [d])
            ((dget graph p.1).getD [])))) graph0

/-- `Resolver._topological_sort` (src/resolver.py:216-269): build the
solution-restricted graph, then DFS from every assigned package in
assignment order. -/
def topologicalSort (st : Store) (python : Option PVersion)
    (assignments : Dict Candidate) : Except String (List String) :=
  match buildSolutionGraph st python assignments with
  | .error e => .error e
  | .ok graph =>
    let fuel := (assignments.length + 1) * (assignments.length + 1) + 1
    .ok (assignments.foldl
      (fun s p => dfsVisit graph fuel p.1 [] s) ([], [])).2

/-- One record of the emitted install plan (src/resolver.py:285-290). -/
structure PlanEntry where
  package : String
  version : String
  yanked : Bool
  vulnerabilities : CVal
deriving Repr

/-- `Resolver._format_solution` (src/resolver.py:271-292): order the
assignments topologically, then emit one record per package.  The record
reads `data['version_str']` and `data['vulnerabilities']`
(src/resolver.py:287,289) — both keys absent from provider candidates,
so the first read raises `KeyError` for any non-empty assignment. -/
def formatSolution (st : Store) (python : Option PVersion)
    (assignments : Dict Candidate) : Except String (List PlanEntry) :=
  match topologicalSort st python assignments with
  | .error e => .error e
  | .ok installOrder =>
    installOrder.foldlM (fun plan packageName =>
      match dget assignments packageName with
      | none => .error packageName
      | some data =>
        match (data.get "version_str").bind CVal.asStr with
        | none => .error "version_str"
        | some versionStr =>
          match data.get "vulnerabilities" with
          | none => .error "vulnerabilities"
          | some vuln =>
            .ok (plan ++ [⟨packageName, versionStr, data.is_yanked, vuln⟩])) []

/-- The outcome of `Resolver.resolve` (src/resolver.py:32-78): the
success structure with its install plan, the conflict structure with the
`debug_info` payloads (`package_causing_conflict`,
`constraint_violated`), a propagating non-`ConflictError` exception
(which `main.py` turns into an HTTP 500), or fuel exhaustion of the
embedding. -/
inductive Response where
  | ok (installPlan : List PlanEntry)
  | conflict (packageCausingConflict : Option String)
             (constraintViolated : Option SpecSet)
  | pyError (key : String)
  | fuelOut

/-- The seeding step of `Resolver.resolve` (src/resolver.py:47):
`normalized_reqs = {canonicalize_name(k): v for k, v in
requirements_map.items()}` — later entries whose canonical name collides
with an earlier one replace the earlier value. -/
def seedConstraints (requirementsMap : Dict SpecSet) : Dict SpecSet :=
  requirementsMap.foldl (fun acc p => dinsert acc (canonicalizeName p.1) p.2) []

/-- `Resolver.resolve` (src/resolver.py:32-78): seed the constraint map
and the todo list, run the backtracking core, format the solution on
success, and turn an escaping `ConflictError` into the conflict response
carrying its `package` and `constraint` payloads. -/
def resolve (st : Store) (python : Option PVersion) (maxV : Option Nat)
    (fuel : Nat) (requirementsMap : Dict SpecSet) : Response :=
  let constraints := seedConstraints requirementsMap
  let todoList := constraints.map (·.1)
  match backtracking st python maxV fuel [] constraints todoList with
  | .ok solution =>
    match formatSolution st python solution with
    | .ok plan => .ok plan
    | .error k => .pyError k
  | .conflict e => .conflict e.package e.constraint
  | .exc k => .pyError k
  | .fuelOut => .fuelOut

/-- `prepare_requirements` (src/main.py:83-104): the `fixed` entries (in
order) seed the requirements dict; each `wants` name is added with the
universal specifier set unless the raw name is already a key. -/
def prepareRequirements (fixed : Dict SpecSet) (wants : List String) :
    Dict SpecSet :=
  let reqs := fixed.foldl (fun acc p => dinsert acc p.1 p.2) []
  wants.foldl (fun acc p => if dmem acc p then acc else dinsert acc p []) reqs

/-- Spec-side combinator for a first-minimum scan: prefer the already
found minimum of the tail only when it is strictly smaller than the head. -/
def pickBetter (f : String → Nat) (p : String) : Option String → Option String
  | none => some p
  | some q => if f q < f p then some q else some p

/-- Spec-side description of a first-minimum scan: the earliest list
element attaining the minimal value of `f`. -/
def firstArgmin (f : String → Nat) : List String → Option String
  | [] => none
  | p :: rest => pickBetter f p (firstArgmin f rest)

theorem orderedInsert_yank_front {a : Candidate} (h : a.is_yanked = false)
    (l : List Candidate) : List.orderedInsert yankRel a l = a :: l := by
  cases l with
  | nil => rfl
  | cons b l =>
    simp only [List.orderedInsert]
    rw [if_pos]
    unfold yankRel
    rw [h]
    rfl

theorem orderedInsert_yank_mid {a : Candidate} (h : a.is_yanked = true) :
    ∀ (F T : List Candidate), (∀ c ∈ F, c.is_yanked = false) →
      (∀ c ∈ T, c.is_yanked = true) →
      List.orderedInsert yankRel a (F ++ T) = F ++ a :: T := by
  intro F
  induction F with
  | nil =>
    intro T _ hT
    cases T with
    | nil => rfl
    | cons t T' =>
      simp only [List.nil_append, List.orderedInsert]
      rw [if_pos]
      unfold yankRel
      rw [h, hT t (List.mem_cons_self t T')]
      rfl
  | cons f F' ih =>
    intro T hF hT
    simp only [List.cons_append, List.orderedInsert, List.append_eq]
    rw [if_neg, ih T (fun c hc => hF c (List.mem_cons_of_mem f hc)) hT]
    unfold yankRel
    rw [h, hF f (List.mem_cons_self f F')]
    simp

theorem insertionSort_yank_partition (l : List Candidate) :
    List.insertionSort yankRel l =
      l.filter (fun c => !c.is_yanked) ++ l.filter (fun c => c.is_yanked) := by
  induction l with
  | nil => rfl
  | cons a l ih =>
    simp only [List.insertionSort, ih]
    cases ha : a.is_yanked with
    | false =>
      rw [orderedInsert_yank_front ha]
      simp [List.filter_cons, ha]
    | true =>
      rw [orderedInsert_yank_mid ha]
      · simp [List.filter_cons, ha]
      · intro c hc
        have := List.of_mem_filter hc
        simpa using this
      · intro c hc
        have := List.of_mem_filter hc
        simpa using this

theorem pairwise_of_forall_mem_left {α : Type} {R : α → α → Prop}
    {l : List α} (h : ∀ x ∈ l, ∀ y, R x y) : List.Pairwise R l := by
  induction l with
  | nil => exact List.Pairwise.nil
  | cons a l ih =>
    refine List.Pairwise.cons (fun b _ => h a (List.mem_cons_self a l) b) ?_
    exact ih (fun x hx y => h x (List.mem_cons_of_mem a hx) y)

theorem pairwise_of_forall_mem_right {α : Type} {R : α → α → Prop}
    {l : List α} (h : ∀ y ∈ l, ∀ x, R x y) : List.Pairwise R l := by
  induction l with
  | nil => exact List.Pairwise.nil
  | cons a l ih =>
    refine List.Pairwise.cons (fun b hb => h b (List.mem_cons_of_mem a hb) a) ?_
    exact ih (fun y hy x => h y (List.mem_cons_of_mem a hy) x)

theorem getCandidateVersions_none_eq (st : Store) (python : Option PVersion)
    (name : String) (ss : Option SpecSet) :
    getCandidateVersions st python none name ss =
      List.insertionSort yankRel (List.insertionSort verDescRel
        ((getAvailableVersions st name).filterMap
          (candidateOfVersion st python name (ss.getD [])))) := rfl

theorem getCandidateVersions_pairwise (st : Store) (python : Option PVersion)
    (name : String) (ss : Option SpecSet) :
    List.Pairwise
      (fun a b : Candidate => (a.is_yanked = true → b.is_yanked = true) ∧
        (a.is_yanked = b.is_yanked → verLe b.version_obj a.version_obj = true))
      (getCandidateVersions st python none name ss) := by
  rw [getCandidateVersions_none_eq, insertionSort_yank_partition]
  set L := List.insertionSort verDescRel
    ((getAvailableVersions st name).filterMap
      (candidateOfVersion st python name (ss.getD []))) with hL
  have hsorted : List.Pairwise verDescRel L := List.sorted_insertionSort _ _
  have hFy : ∀ c ∈ L.filter (fun c => !c.is_yanked), c.is_yanked = false := by
    intro c hc
    have := List.of_mem_filter hc
    simpa using this
  have hTy : ∀ c ∈ L.filter (fun c => c.is_yanked), c.is_yanked = true := by
    intro c hc
    have := List.of_mem_filter hc
    simpa using this
  have hp1 : List.Pairwise (fun a b : Candidate => a.is_yanked = true → b.is_yanked = true)
      (L.filter (fun c => !c.is_yanked) ++ L.filter (fun c => c.is_yanked)) := by
    rw [List.pairwise_append]
    refine ⟨pairwise_of_forall_mem_left (fun x hx y hxy => absurd (hFy x hx) (by simp [hxy])),
      pairwise_of_forall_mem_right (fun y hy _ _ => hTy y hy),
      fun a _ b hb _ => hTy b hb⟩
  have hp2 : List.Pairwise
      (fun a b : Candidate => a.is_yanked = b.is_yanked →
        verLe b.version_obj a.version_obj = true)
      (L.filter (fun c => !c.is_yanked) ++ L.filter (fun c => c.is_yanked)) := by
    rw [List.pairwise_append]
    have himp : ∀ {a b : Candidate}, verDescRel a b →
        (a.is_yanked = b.is_yanked → verLe b.version_obj a.version_obj = true) :=
      fun h _ => h
    refine ⟨((hsorted.sublist (List.filter_sublist L)).imp himp),
      ((hsorted.sublist (List.filter_sublist L)).imp himp),
      fun a ha b hb heq => absurd heq (by simp [hFy a ha, hTy b hb])⟩
  exact hp1.and hp2

theorem getCandidateVersions_cap (st : Store) (python : Option PVersion)
    (name : String) (ss : Option SpecSet) (m : Nat) (hm : 0 < m) :
    getCandidateVersions st python (some m) name ss =
      (getCandidateVersions st python none name ss).take m := by
  show (if m ≠ 0 && decide ((List.insertionSort yankRel (List.insertionSort verDescRel
        ((getAvailableVersions st name).filterMap
          (candidateOfVersion st python name (ss.getD []))))).length > m)
      then _ else _) = _
  set L := List.insertionSort yankRel (List.insertionSort verDescRel
    ((getAvailableVersions st name).filterMap
      (candidateOfVersion st python name (ss.getD [])))) with hLdef
  by_cases h : L.length > m
  · rw [if_pos]
    · rfl
    · simp [h, Nat.pos_iff_ne_zero.mp hm]
  · rw [if_neg]
    · exact (List.take_of_length_le (Nat.le_of_not_lt h)).symm
    · simp [h]


theorem firstArgmin_cons_ne_none (f : String → Nat) (p : String)
    (rest : List String) : firstArgmin f (p :: rest) ≠ none := by
  simp only [firstArgmin]
  cases firstArgmin f rest with
  | none => simp [pickBetter]
  | some q => by_cases h : f q < f p <;> simp [pickBetter, h]

theorem firstArgmin_min (f : String → Nat) :
    ∀ (l : List String) (q : String), firstArgmin f l = some q →
      ∀ x ∈ l, f q ≤ f x := by
  intro l
  induction l with
  | nil => intro q hq; simp [firstArgmin] at hq
  | cons p rest ih =>
    intro q hq x hx
    cases hr : firstArgmin f rest with
    | none =>
      rw [firstArgmin, hr] at hq
      simp only [pickBetter] at hq
      have hrest : rest = [] := by
        cases rest with
        | nil => rfl
        | cons a b => exact absurd hr (firstArgmin_cons_ne_none f a b)
      subst hrest
      simp at hx
      subst hx
      rw [← Option.some.inj hq]
    | some q3 =>
      rw [firstArgmin, hr] at hq
      simp only [pickBetter] at hq
      by_cases hlt : f q3 < f p
      · rw [if_pos hlt] at hq
        rw [← Option.some.inj hq]
        rcases List.mem_cons.mp hx with h | h
        · subst h; exact Nat.le_of_lt hlt
        · exact ih q3 hr x h
      · rw [if_neg hlt] at hq
        rw [← Option.some.inj hq]
        rcases List.mem_cons.mp hx with h | h
        · subst h; exact Nat.le_refl _
        · exact Nat.le_trans (Nat.le_of_not_lt hlt) (ih q3 hr x h)

theorem firstArgmin_drop_ge (f : String → Nat) (bp p : String)
    (rest : List String) (h : f bp ≤ f p) :
    firstArgmin f (bp :: p :: rest) = firstArgmin f (bp :: rest) := by
  show pickBetter f bp (pickBetter f p (firstArgmin f rest)) =
    pickBetter f bp (firstArgmin f rest)
  cases hr : firstArgmin f rest with
  | none =>
    show pickBetter f bp (some p) = pickBetter f bp none
    simp only [pickBetter]
    rw [if_neg (Nat.not_lt.mpr h)]
  | some q3 =>
    by_cases h3 : f q3 < f p
    · have hred : pickBetter f p (some q3) = some q3 := by
        simp [pickBetter, h3]
      rw [hred]
    · have hred : pickBetter f p (some q3) = some p := by
        simp [pickBetter, h3]
      rw [hred]
      show pickBetter f bp (some p) = pickBetter f bp (some q3)
      simp only [pickBetter]
      rw [if_neg (Nat.not_lt.mpr h),
        if_neg (Nat.not_lt.mpr (Nat.le_trans h (Nat.le_of_not_lt h3)))]

theorem selectMrvAux_eq_firstArgmin (st : Store) (python : Option PVersion)
    (maxV : Option Nat) (constraints : Dict SpecSet) :
    ∀ (rest : List String) (bp : String) (bc : Nat),
      mrvCount st python maxV constraints bp = bc → bc ≠ 0 →
      selectMrvAux st python maxV constraints rest (some (bp, bc)) =
        firstArgmin (mrvCount st python maxV constraints) (bp :: rest) := by
  intro rest
  induction rest with
  | nil =>
    intro bp bc _ _
    simp [selectMrvAux, firstArgmin, pickBetter]
  | cons p rest ih =>
    intro bp bc hbc hne
    rw [selectMrvAux]
    by_cases h0 : mrvCount st python maxV constraints p = 0
    · rw [if_pos h0]
      have hp : firstArgmin (mrvCount st python maxV constraints) (p :: rest) = some p := by
        rw [firstArgmin]
        cases hr : firstArgmin (mrvCount st python maxV constraints) rest with
        | none => simp [pickBetter]
        | some q3 => simp only [pickBetter]; rw [if_neg (by omega)]
      rw [show firstArgmin (mrvCount st python maxV constraints) (bp :: p :: rest) =
        pickBetter (mrvCount st python maxV constraints) bp
          (firstArgmin (mrvCount st python maxV constraints) (p :: rest)) from rfl]
      rw [hp]
      simp only [pickBetter]
      rw [if_pos (by omega)]
    · rw [if_neg h0]
      simp only [mrvBest]
      by_cases hlt : mrvCount st python maxV constraints p < bc
      · rw [if_pos hlt]
        rw [ih p _ rfl h0]
        cases hq : firstArgmin (mrvCount st python maxV constraints) (p :: rest) with
        | none => exact absurd hq (firstArgmin_cons_ne_none _ _ _)
        | some q =>
          rw [show firstArgmin (mrvCount st python maxV constraints) (bp :: p :: rest) =
            pickBetter (mrvCount st python maxV constraints) bp
              (firstArgmin (mrvCount st python maxV constraints) (p :: rest)) from rfl]
          rw [hq]
          simp only [pickBetter]
          rw [if_pos]
          have := firstArgmin_min _ _ _ hq p (List.mem_cons_self p rest)
          omega
      · rw [if_neg hlt]
        rw [ih bp bc hbc hne]
        rw [firstArgmin_drop_ge]
        omega

theorem dget_dinsert_self {β : Type} (d : Dict β) (k : String) (v : β) :
    dget (dinsert d k v) k = some v := by
  induction d with
  | nil => simp [dinsert, dget, List.find?]
  | cons p rest ih =>
    by_cases h : p.1 = k
    · simp [dinsert, h, dget, List.find?]
    · simp only [dinsert]
      rw [if_neg h]
      simp only [dget, List.find?] at ih ⊢
      rw [decide_eq_false h]
      exact ih

theorem dget_dinsert_ne {β : Type} (d : Dict β) (k k' : String) (v : β)
    (h : k' ≠ k) : dget (dinsert d k v) k' = dget d k' := by
  induction d with
  | nil => simp [dinsert, dget, List.find?, decide_eq_false (Ne.symm h)]
  | cons p rest ih =>
    by_cases hp : p.1 = k
    · simp only [dinsert]
      rw [if_pos hp]
      simp only [dget, List.find?]
      rw [show decide (k = k') = false from decide_eq_false (Ne.symm h),
        show decide (p.1 = k') = false from decide_eq_false (by rw [hp]; exact Ne.symm h)]
    · simp only [dinsert]
      rw [if_neg hp]
      simp only [dget, List.find?] at ih ⊢
      cases hd : decide (p.1 = k') with
      | true => rfl
      | false => exact ih

theorem dget_some_mem {β : Type} {d : Dict β} {k : String} {v : β}
    (h : dget d k = some v) : (k, v) ∈ d := by
  simp only [dget, Option.map_eq_some'] at h
  obtain ⟨p, hp, hv⟩ := h
  have hmem := List.mem_of_find?_eq_some hp
  have hpred := List.find?_some hp
  simp only [decide_eq_true_eq] at hpred
  have : p = (k, v) := by
    cases p
    simp only at hpred hv
    rw [hpred, hv]
  rw [← this]
  exact hmem

theorem dget_isSome_dmem {β : Type} {d : Dict β} {k : String} {v : β}
    (h : dget d k = some v) : dmem d k = true := by
  simp only [dget, Option.map_eq_some'] at h
  obtain ⟨p, hp, _⟩ := h
  simp [dmem, hp]

theorem mem_dinsert_self {β : Type} (d : Dict β) (k : String) (v : β) :
    (k, v) ∈ dinsert d k v := by
  induction d with
  | nil => simp [dinsert]
  | cons p rest ih =>
    by_cases h : p.1 = k
    · simp [dinsert, h]
    · simp only [dinsert]
      rw [if_neg h]
      exact List.mem_cons_of_mem p ih

theorem mem_dinsert_of_ne {β : Type} {d : Dict β} {k k' : String} {s : β}
    (hmem : (k, s) ∈ d) (hne : k ≠ k') (v : β) : (k, s) ∈ dinsert d k' v := by
  induction d with
  | nil => simp at hmem
  | cons p rest ih =>
    by_cases hp : p.1 = k'
    · rcases List.mem_cons.mp hmem with h | h
      · exact absurd (by rw [← h] at hp; exact hp) hne
      · simp only [dinsert]
        rw [if_pos hp]
        exact List.mem_cons_of_mem _ h
    · simp only [dinsert]
      rw [if_neg hp]
      rcases List.mem_cons.mp hmem with h | h
      · exact h ▸ List.mem_cons_self p _
      · exact List.mem_cons_of_mem p (ih h)

theorem mem_dinsert {β : Type} {d : Dict β} {q : String × β} {k : String}
    {v : β} (h : q ∈ dinsert d k v) : q ∈ d ∨ q = (k, v) := by
  induction d with
  | nil => simp [dinsert] at h; right; exact h
  | cons p rest ih =>
    by_cases hp : p.1 = k
    · simp only [dinsert] at h
      rw [if_pos hp] at h
      rcases List.mem_cons.mp h with h | h
      · right; exact h
      · left; exact List.mem_cons_of_mem p h
    · simp only [dinsert] at h
      rw [if_neg hp] at h
      rcases List.mem_cons.mp h with h | h
      · left; exact h ▸ List.mem_cons_self p _
      · rcases ih h with h2 | h2
        · left; exact List.mem_cons_of_mem p h2
        · right; exact h2

theorem ssContains_append_left {s t : SpecSet} {v : PVersion} {pre : Bool}
    (h : ssContains (s ++ t) v pre = true) : ssContains s v pre = true := by
  simp only [ssContains] at h ⊢
  by_cases hg : (v.isPre && !pre) = true
  · rw [if_pos hg] at h
    exact absurd h (by simp)
  · rw [if_neg hg] at h ⊢
    simp only [List.all_append, Bool.and_eq_true] at h
    exact h.1

theorem processDeps_mono (assignments : Dict Candidate) :
    ∀ (deps : List (String × SpecSet)) (constraints : Dict SpecSet)
      (adds : List String) (c' : Dict SpecSet) (adds' : List String),
      processDeps assignments deps constraints adds = .ok (c', adds') →
      ∀ k s, dget constraints k = some s →
        ∃ ext, dget c' k = some (s ++ ext) := by
  intro deps
  induction deps with
  | nil =>
    intro constraints adds c' adds' hok k s hk
    simp only [processDeps] at hok
    cases hok
    exact ⟨[], by simpa using hk⟩
  | cons dep rest ih =>
    intro constraints adds c' adds' hok k s hk
    obtain ⟨dn0, dspec⟩ := dep
    have step : ∀ (cnew : Dict SpecSet) (anew : List String),
        processDeps assignments rest cnew anew = .ok (c', adds') →
        (∃ t, dget cnew k = some (s ++ t)) →
        ∃ ext, dget c' k = some (s ++ ext) := by
      intro cnew anew hok2 hext
      obtain ⟨t, ht⟩ := hext
      obtain ⟨e2, he2⟩ := ih cnew anew c' adds' hok2 k (s ++ t) ht
      exact ⟨t ++ e2, by rw [he2, List.append_assoc]⟩
    simp only [processDeps] at hok
    cases hass : dget assignments (canonicalizeName dn0) with
    | some assigned =>
      rw [hass] at hok
      simp only [] at hok
      by_cases hc : (!ssContains dspec assigned.version_obj false) = true
      · rw [if_pos hc] at hok
        simp at hok
      · rw [if_neg hc] at hok
        by_cases hkdn : k = canonicalizeName dn0
        · rw [← hkdn, hk] at hok
          simp only [] at hok
          exact step _ _ hok ⟨dspec, by rw [dget_dinsert_self]; rfl⟩
        · cases hcur : dget constraints (canonicalizeName dn0) with
          | some cur =>
            rw [hcur] at hok
            simp only [] at hok
            exact step _ _ hok ⟨[], by
              rw [List.append_nil, dget_dinsert_ne _ _ _ _ hkdn]; exact hk⟩
          | none =>
            rw [hcur] at hok
            simp only [] at hok
            exact step _ _ hok ⟨[], by
              rw [List.append_nil, dget_dinsert_ne _ _ _ _ hkdn]; exact hk⟩
    | none =>
      rw [hass] at hok
      simp only [] at hok
      by_cases hkdn : k = canonicalizeName dn0
      · rw [← hkdn, hk] at hok
        simp only [] at hok
        exact step _ _ hok ⟨dspec, by rw [dget_dinsert_self]; rfl⟩
      · cases hcur : dget constraints (canonicalizeName dn0) with
        | some cur =>
          rw [hcur] at hok
          simp only [] at hok
          exact step _ _ hok ⟨[], by
            rw [List.append_nil, dget_dinsert_ne _ _ _ _ hkdn]; exact hk⟩
        | none =>
          rw [hcur] at hok
          simp only [] at hok
          exact step _ _ hok ⟨[], by
            rw [List.append_nil, dget_dinsert_ne _ _ _ _ hkdn]; exact hk⟩

theorem ssContains_pre_false {ss : SpecSet} {v : PVersion}
    (h : v.isPre = true) : ssContains ss v false = false := by
  simp [ssContains, h]

theorem processDeps_prerelease_conflict (assignments : Dict Candidate) :
    ∀ (deps : List (String × SpecSet)) (constraints : Dict SpecSet)
      (adds : List String) (dn0 : String) (dspec : SpecSet) (cd : Candidate),
      (dn0, dspec) ∈ deps →
      dget assignments (canonicalizeName dn0) = some cd →
      cd.version_obj.isPre = true →
      ∃ e, processDeps assignments deps constraints adds = .error e := by
  intro deps
  induction deps with
  | nil =>
    intro _ _ _ _ _ hmem _ _
    simp at hmem
  | cons dep rest ih =>
    intro constraints adds dn0 dspec cd hmem hass hpre
    obtain ⟨h0, hs⟩ := dep
    rcases List.mem_cons.mp hmem with hhead | htail
    · obtain ⟨rfl, rfl⟩ := Prod.mk.injEq .. ▸ hhead
      refine ⟨.mk none none none, ?_⟩
      simp only [processDeps]
      rw [hass]
      simp only []
      rw [if_pos]
      rw [ssContains_pre_false hpre]
      rfl
    · simp only [processDeps]
      cases hass0 : dget assignments (canonicalizeName h0) with
      | some assigned =>
        simp only []
        by_cases hc : (!ssContains hs assigned.version_obj false) = true
        · rw [if_pos hc]
          exact ⟨.mk none none none, rfl⟩
        · rw [if_neg hc]
          exact ih _ _ dn0 dspec cd htail hass hpre
      | none =>
        simp only []
        cases hcur : dget constraints (canonicalizeName h0) with
        | some cur => exact ih _ _ dn0 dspec cd htail hass hpre
        | none => exact ih _ _ dn0 dspec cd htail hass hpre

theorem seedConstraints_aux (k : String) (s : SpecSet) :
    ∀ (l : List (String × SpecSet)) (acc : Dict SpecSet),
      ((k, s) ∈ l ∨ dget acc (canonicalizeName k) = some s) →
      (∀ p ∈ l, canonicalizeName p.1 = canonicalizeName k → p.2 = s) →
      dget (l.foldl (fun acc p => dinsert acc (canonicalizeName p.1) p.2) acc)
        (canonicalizeName k) = some s := by
  intro l
  induction l with
  | nil =>
    intro acc hin _
    rcases hin with h | h
    · simp at h
    · exact h
  | cons p rest ih =>
    intro acc hin hval
    simp only [List.foldl_cons]
    by_cases hcanon : canonicalizeName p.1 = canonicalizeName k
    · have hps : p.2 = s := hval p (List.mem_cons_self p rest) hcanon
      refine ih _ (Or.inr ?_) (fun q hq => hval q (List.mem_cons_of_mem p hq))
      rw [← hcanon, hps]
      exact dget_dinsert_self _ _ _
    · refine ih _ ?_ (fun q hq => hval q (List.mem_cons_of_mem p hq))
      rcases hin with h | h
      · rcases List.mem_cons.mp h with h2 | h2
        · exact absurd (by rw [← h2]) hcanon
        · exact Or.inl h2
      · refine Or.inr ?_
        rw [dget_dinsert_ne _ _ _ _ (fun he => hcanon he.symm)]
        exact h

theorem fixedFold_mem (k : String) (s : SpecSet) :
    ∀ (fixed : Dict SpecSet) (acc : Dict SpecSet),
      ((k, s) ∈ acc ∨ (k, s) ∈ fixed) →
      (∀ p ∈ fixed, p.1 = k → p.2 = s) →
      (k, s) ∈ fixed.foldl (fun acc p => dinsert acc p.1 p.2) acc := by
  intro fixed
  induction fixed with
  | nil =>
    intro acc hin _
    rcases hin with h | h
    · exact h
    · simp at h
  | cons p rest ih =>
    intro acc hin hval
    simp only [List.foldl_cons]
    by_cases hp : p.1 = k
    · have hps : p.2 = s := hval p (List.mem_cons_self p rest) hp
      refine ih _ (Or.inl ?_) (fun q hq hqk => hval q (List.mem_cons_of_mem p hq) hqk)
      rw [← hp, ← hps]
      exact mem_dinsert_self _ _ _
    · refine ih _ ?_ (fun q hq hqk => hval q (List.mem_cons_of_mem p hq) hqk)
      rcases hin with h | h
      · exact Or.inl (mem_dinsert_of_ne h (fun he => hp he.symm) _)
      · rcases List.mem_cons.mp h with h2 | h2
        · exact absurd (by rw [← h2]) hp
        · exact Or.inr h2

theorem wantsFold_mem (k : String) (s : SpecSet) :
    ∀ (wants : List String) (reqs : Dict SpecSet),
      (k, s) ∈ reqs → (∀ w ∈ wants, w ≠ k) →
      (k, s) ∈ wants.foldl
        (fun acc p => if dmem acc p then acc else dinsert acc p []) reqs := by
  intro wants
  induction wants with
  | nil => intro reqs h _; exact h
  | cons w rest ih =>
    intro reqs h hw
    simp only [List.foldl_cons]
    by_cases hm : dmem reqs w
    · rw [if_pos hm]
      exact ih _ h (fun x hx => hw x (List.mem_cons_of_mem w hx))
    · rw [if_neg hm]
      refine ih _ ?_ (fun x hx => hw x (List.mem_cons_of_mem w hx))
      exact mem_dinsert_of_ne h
        (fun he => hw w (List.mem_cons_self w rest) he.symm) _

theorem fixedFold_origin {q : String × SpecSet} :
    ∀ (fixed : Dict SpecSet) (acc : Dict SpecSet),
      q ∈ fixed.foldl (fun acc p => dinsert acc p.1 p.2) acc →
      q ∈ acc ∨ q ∈ fixed := by
  intro fixed
  induction fixed with
  | nil => intro acc h; exact Or.inl h
  | cons p rest ih =>
    intro acc h
    simp only [List.foldl_cons] at h
    rcases ih _ h with h2 | h2
    · rcases mem_dinsert h2 with h3 | h3
      · exact Or.inl h3
      · right
        rw [h3]
        exact List.mem_cons_self p rest
    · exact Or.inr (List.mem_cons_of_mem p h2)

theorem wantsFold_origin {q : String × SpecSet} :
    ∀ (wants : List String) (reqs : Dict SpecSet),
      q ∈ wants.foldl (fun acc p => if dmem acc p then acc else dinsert acc p []) reqs →
      q ∈ reqs ∨ (q.1 ∈ wants ∧ q.2 = []) := by
  intro wants
  induction wants with
  | nil => intro reqs h; exact Or.inl h
  | cons w rest ih =>
    intro reqs h
    simp only [List.foldl_cons] at h
    by_cases hm : dmem reqs w
    · rw [if_pos hm] at h
      rcases ih _ h with h2 | h2
      · exact Or.inl h2
      · exact Or.inr ⟨List.mem_cons_of_mem w h2.1, h2.2⟩
    · rw [if_neg hm] at h
      rcases ih _ h with h2 | h2
      · rcases mem_dinsert h2 with h3 | h3
        · exact Or.inl h3
        · right
          rw [h3]
          exact ⟨List.mem_cons_self w rest, rfl⟩
      · exact Or.inr ⟨List.mem_cons_of_mem w h2.1, h2.2⟩

/-- The entries of `prepare_requirements` output come from `fixed` or are
`(w, universal)` for some `w ∈ wants`. -/
theorem prepareRequirements_origin {q : String × SpecSet}
    (fixed : Dict SpecSet) (wants : List String)
    (h : q ∈ prepareRequirements fixed wants) :
    q ∈ fixed ∨ (q.1 ∈ wants ∧ q.2 = []) := by
  unfold prepareRequirements at h
  rcases wantsFold_origin wants _ h with h2 | h2
  · rcases fixedFold_origin fixed [] h2 with h3 | h3
    · simp at h3
    · exact Or.inl h3
  · exact Or.inr h2

/-! ## Concrete metadata snapshots used by counterexamples and witnesses -/

/-- `1.0`. -/
def v10 : PVersion := ⟨[1, 0], none⟩

/-- `1.5`. -/
def v15 : PVersion := ⟨[1, 5], none⟩

/-- `2.0`. -/
def v20 : PVersion := ⟨[2, 0], none⟩

/-- The pre-release `1.0a1`. -/
def v10a1 : PVersion := ⟨[1, 0], some 1⟩

/-- One package `a` with one final release `1.0` and no dependencies. -/
def storeA : Store where
  rows := [⟨"a", "1.0", .sqlNull, .sqlNull, false⟩]
  parseVersion := fun s => if s = "1.0" then some v10 else none

/-- One package `a` published only as the pre-release `1.0a1`. -/
def storePre : Store where
  rows := [⟨"a", "1.0a1", .sqlNull, .sqlNull, false⟩]
  parseVersion := fun s => if s = "1.0a1" then some v10a1 else none

/-- Two packages `a` and `b`, one release each — an MRV tie. -/
def storeMrv : Store where
  rows := [⟨"a", "1.0", .sqlNull, .sqlNull, false⟩,
           ⟨"b", "1.0", .sqlNull, .sqlNull, false⟩]
  parseVersion := fun s => if s = "1.0" then some v10 else none

/-- The spec's S3 scenario: `a 1.0` depends on `b>=2.0`, `a 2.0` depends
on `b<2.0`, and `b` exists only as `1.5`. -/
def storeS3 : Store where
  rows := [⟨"a", "1.0", .arr [.parsed "b" [⟨.ge, v20⟩] none], .sqlNull, false⟩,
           ⟨"a", "2.0", .arr [.parsed "b" [⟨.lt, v20⟩] none], .sqlNull, false⟩,
           ⟨"b", "1.5", .sqlNull, .sqlNull, false⟩]
  parseVersion := fun s =>
    if s = "1.0" then some v10
    else if s = "2.0" then some v20
    else if s = "1.5" then some v15
    else none

/-- One package `a`/`1.0` whose `requires_dist` and `requires_python`
columns both hold the literal token `null`. -/
def storeNull : Store where
  rows := [⟨"a", "1.0", .nullTok, .nullTok, false⟩]
  parseVersion := fun s => if s = "1.0" then some v10 else none

/-- A package `p` whose release `1.0` requires `d>=1.0a0`, and `d`
published as the pre-release `1.0a1`. -/
def storeC10 : Store where
  rows := [⟨"p", "1.0", .arr [.parsed "d" [⟨.ge, ⟨[1, 0], some 0⟩⟩] none],
            .sqlNull, false⟩,
           ⟨"d", "1.0a1", .sqlNull, .sqlNull, false⟩]
  parseVersion := fun s =>
    if s = "1.0" then some v10
    else if s = "1.0a1" then some v10a1
    else none

/-! ## The claims -/

/-- C1 (code bug): the claim states that every success result's install
plan is sound — every chosen version satisfies every specifier imposed on
it by other plan members and the top-level `fixed` entry.  The code
cannot produce any such plan: for every request whose resolution reaches
a candidate, `Resolver._backtracking` reads `candidate['version_str']`
(src/resolver.py:119) while `GraphBuilder.get_candidate_versions` stores
the string under the key `version` (src/graph_builder.py:73), so the
resolution aborts with `KeyError` instead of returning a plan.  Here the
embedded pipeline is evaluated at the failing input — metadata with a
single dependency-free release `a 1.0` and the request `{a: ""}`. -/
theorem c1_resolve_keyerror :
    resolve storeA none none 10 [("a", [])] = .pyError "version_str" := by
  rfl

/-- C2 (confirmed): for a fixed metadata store and request, two calls to
`resolve` return identical results.  The embedded `resolve` is a pure
function of the store, the environment and the request; the Python-level
sources of potential divergence (dict iteration order, sort stability,
the SQL row order of the snapshot) are all modelled by insertion-ordered
structures, so determinism holds by functionality. -/
theorem c2_resolve_deterministic (st : Store) (python : Option PVersion)
    (maxV : Option Nat) (fuel : Nat) (requirementsMap : Dict SpecSet) :
    resolve st python maxV fuel requirementsMap =
      resolve st python maxV fuel requirementsMap := rfl

/-- C3 (counterexample): the claim states that the provider excludes
pre-release versions unless the required specifier set names a
pre-release or a pre-release allowance is set.  With the universal
required set (which names no pre-release) and no allowance anywhere in
the request, the provider still returns the pre-release `1.0a1`, because
src/graph_builder.py:56 always passes `prereleases=True`. -/
theorem c3_counterexample :
    getCandidateVersions storePre none none "a" (some []) =
      [⟨"a", v10a1, "1.0a1", false⟩] ∧ PVersion.isPre v10a1 = true := by
  exact ⟨rfl, rfl⟩

/-- C3 (amended): the provider includes pre-releases unconditionally —
a stored version string belongs to the candidate list iff it parses,
is contained in the required set **with pre-releases allowed**, and
passes the interpreter filter; in particular a parseable, contained,
interpreter-compatible version is kept no matter whether it is a
pre-release. -/
theorem c3_candidates_include_prereleases :
    (∀ (st : Store) (python : Option PVersion) (name : String)
        (ss : SpecSet) (c : Candidate),
      c ∈ getCandidateVersions st python none name (some ss) ↔
        ∃ vs ∈ getAvailableVersions st name,
          candidateOfVersion st python name ss vs = some c)
    ∧ (∀ (st : Store) (python : Option PVersion) (name : String)
        (ss : SpecSet) (vs : String) (vobj : PVersion),
      st.parseVersion vs = some vobj →
      ssContains ss vobj true = true →
      (∀ py, python = some py → dbPythonSatisfies st name vs py = true) →
      candidateOfVersion st python name ss vs =
        some ⟨pyLower name, vobj, vs, isYanked st name vs⟩) := by
  constructor
  · intro st python name ss c
    rw [getCandidateVersions_none_eq]
    rw [(List.perm_insertionSort yankRel _).mem_iff,
      (List.perm_insertionSort verDescRel _).mem_iff]
    simp only [Option.getD]
    exact List.mem_filterMap
  · intro st python name ss vs vobj hparse hcont hpy
    unfold candidateOfVersion
    rw [hparse]
    simp only [hcont]
    cases python with
    | none => rfl
    | some py =>
      simp only [hpy py rfl]
      rfl

/-- C3 witness: the pre-release candidate of `storePre` is produced by
both directions of the amended theorem. -/
theorem c3_witness :
    ((⟨"a", v10a1, "1.0a1", false⟩ : Candidate) ∈
        getCandidateVersions storePre none none "a" (some [])) ∧
      candidateOfVersion storePre none "a" [] "1.0a1" =
        some ⟨pyLower "a", v10a1, "1.0a1", isYanked storePre "a" "1.0a1"⟩ := by
  constructor
  · exact (c3_candidates_include_prereleases.1 storePre none "a" [] _).mpr
      ⟨"1.0a1", by decide, by rfl⟩
  · exact c3_candidates_include_prereleases.2 storePre none "a" [] "1.0a1" v10a1
      (by rfl) (by decide) (fun py h => by cases h)

/-- C4 (counterexample): the claim states that MRV ties between equal
candidate counts are broken by lexicographic package-name order.  With
the open list `["b", "a"]` and both packages counting one candidate, the
selector returns `"b"` (the earlier list entry), not the
lexicographically smaller `"a"`: src/resolver.py:208 replaces the
running best only on a strictly smaller count. -/
theorem c4_counterexample :
    selectMrv storeMrv none none ["b", "a"] [("a", []), ("b", [])] = some "b" ∧
    mrvCount storeMrv none none [("a", []), ("b", [])] "a" = 1 ∧
    mrvCount storeMrv none none [("a", []), ("b", [])] "b" = 1 := by
  exact ⟨rfl, rfl, rfl⟩

/-- C4 (amended): MRV selection returns the *first* open-list package
attaining the minimal candidate count — ties are broken by position in
the open list, not by name; the zero-count fail-fast returns the first
zero-count package, which coincides with that first minimum. -/
theorem c4_mrv_first_minimum (st : Store) (python : Option PVersion)
    (maxV : Option Nat) (constraints : Dict SpecSet) (todoList : List String) :
    selectMrv st python maxV todoList constraints =
      firstArgmin (mrvCount st python maxV constraints) todoList := by
  cases todoList with
  | nil => rfl
  | cons p rest =>
    rw [selectMrv, selectMrvAux]
    by_cases h0 : mrvCount st python maxV constraints p = 0
    · rw [if_pos h0, firstArgmin]
      cases hr : firstArgmin (mrvCount st python maxV constraints) rest with
      | none => simp [pickBetter]
      | some q3 =>
        simp only [pickBetter]
        rw [if_neg (by omega)]
    · rw [if_neg h0]
      simp only [mrvBest]
      exact selectMrvAux_eq_firstArgmin st python maxV constraints rest p _ rfl h0

/-- C5 (confirmed): every candidate list is ordered with all non-yanked
candidates before all yanked ones and versions descending inside each of
the two groups, and a positive cap truncates to the first `cap` entries
of that ordering. -/
theorem c5_candidate_ordering (st : Store) (python : Option PVersion)
    (name : String) (ss : Option SpecSet) :
    List.Pairwise
      (fun a b : Candidate => (a.is_yanked = true → b.is_yanked = true) ∧
        (a.is_yanked = b.is_yanked → verLe b.version_obj a.version_obj = true))
      (getCandidateVersions st python none name ss)
    ∧ ∀ m : Nat, 0 < m →
        getCandidateVersions st python (some m) name ss =
          (getCandidateVersions st python none name ss).take m :=
  ⟨getCandidateVersions_pairwise st python name ss,
    fun m hm => getCandidateVersions_cap st python name ss m hm⟩

/-- C5 witness: the ordering and the cap equation at a concrete store. -/
theorem c5_witness :
    List.Pairwise
      (fun a b : Candidate => (a.is_yanked = true → b.is_yanked = true) ∧
        (a.is_yanked = b.is_yanked → verLe b.version_obj a.version_obj = true))
      (getCandidateVersions storeS3 none none "a" (some []))
    ∧ getCandidateVersions storeS3 none (some 1) "a" (some []) =
        (getCandidateVersions storeS3 none none "a" (some [])).take 1 :=
  ⟨(c5_candidate_ordering storeS3 none "a" (some [])).1,
    (c5_candidate_ordering storeS3 none "a" (some [])).2 1 (by decide)⟩

/-- C6 (code bug): the claim describes the conflict protocol — an
empty-candidate frame raises a `Conflict` with the package and its
constraint, child conflicts are caught by the parent and treated as
candidate failures, and only a root conflict is surfaced as the
`"conflict"` response.  On the spec's own S3 metadata (`a 1.0` needs
`b>=2.0`, `a 2.0` needs `b<2.0`, `b` only `1.5`) the protocol never
runs: the first candidate of `a` aborts the whole resolution with
`KeyError('version_str')` (src/resolver.py:119 versus
src/graph_builder.py:73), so no child frame is ever entered and no
`Conflict` is raised or caught. -/
theorem c6_resolve_keyerror :
    resolve storeS3 none none 10 [("a", [])] = .pyError "version_str" := by
  rfl

/-- C7 (code bug): the claim states that the emitter lists exactly the
assigned packages in dependency-before-dependent order and terminates on
cycles.  The emitter raises instead: for any non-empty assignment built
from provider candidates, `Resolver._topological_sort` reads
`data['version_str']` (src/resolver.py:227) — a key the provider never
writes (and `_format_solution` would additionally read the never-written
`vulnerabilities` key, src/resolver.py:289).  This theorem evaluates the
emitter at a one-package assignment. -/
theorem c7_emitter_keyerror :
    formatSolution storeA none [("a", ⟨"a", v10, "1.0", false⟩)] =
      .error "version_str" := by
  rfl

/-- C8 (counterexample): the claim states that a constraint-map entry
for a fixed name is seeded with the fixed specifier set and never
weakened.  The request `fixed={"Flask": "==1.0"}`, `wants=["flask"]`
passes the validator (raw key sets are disjoint), but
`Resolver.resolve`'s normalization `{canonicalize_name(k): v}`
(src/resolver.py:47) lets the later `wants` entry overwrite the fixed
one: the seeded entry for the canonical name `flask` is the universal
set, which admits `2.0` although the fixed `==1.0` excludes it — the
fixed constraint is weakened before the search even starts. -/
theorem c8_counterexample :
    dget (seedConstraints
        (prepareRequirements [("Flask", [⟨SpecOp.eq, v10⟩])] ["flask"]))
      "flask" = some [] ∧
    ssContains [⟨SpecOp.eq, v10⟩] v20 true = false ∧
    ssContains [] v20 true = true := by
  exact ⟨rfl, by decide, by decide⟩

/-- C8 (amended): provided no other request key shares the canonical
form of a fixed name `k` (and colliding `fixed` entries agree with
`k`'s), the seeded constraint map carries exactly the fixed specifier
set at `canonicalize_name(k)`; and every constraint-map update performed
during dependency processing only strengthens entries — an existing
entry is only ever replaced by its intersection with further
specifiers, never by anything looser. -/
theorem c8_fixed_entry_never_weakened :
    (∀ (fixed : Dict SpecSet) (wants : List String) (k : String) (s : SpecSet),
      dget fixed k = some s →
      (∀ p ∈ fixed, canonicalizeName p.1 = canonicalizeName k →
        p.1 = k ∧ p.2 = s) →
      (∀ w ∈ wants, canonicalizeName w ≠ canonicalizeName k) →
      dget (seedConstraints (prepareRequirements fixed wants))
        (canonicalizeName k) = some s)
    ∧ (∀ (assignments : Dict Candidate) (deps : List (String × SpecSet))
        (constraints : Dict SpecSet) (adds : List String)
        (c' : Dict SpecSet) (adds' : List String) (k : String) (s : SpecSet),
      processDeps assignments deps constraints adds = .ok (c', adds') →
      dget constraints k = some s →
      ∃ ext, dget c' k = some (ssIntersect s ext) ∧
        ∀ v pre, ssContains (ssIntersect s ext) v pre = true →
          ssContains s v pre = true) := by
  constructor
  · intro fixed wants k s hget hfix hwants
    unfold seedConstraints
    apply seedConstraints_aux
    · left
      unfold prepareRequirements
      apply wantsFold_mem
      · apply fixedFold_mem
        · exact Or.inr (dget_some_mem hget)
        · intro p hp hpk
          exact (hfix p hp (by rw [hpk])).2
      · intro w hw he
        exact hwants w hw (by rw [he])
    · intro q hq hcq
      rcases prepareRequirements_origin fixed wants hq with h | h
      · exact (hfix q h hcq).2
      · exact absurd hcq (hwants q.1 h.1)
  · intro assignments deps constraints adds c' adds' k s hok hk
    obtain ⟨ext, he⟩ := processDeps_mono assignments deps constraints adds c' adds' hok k s hk
    exact ⟨ext, he, fun v pre h => ssContains_append_left h⟩

/-- C8 witness: the seeding conclusion at a collision-free request, and
the strengthening conclusion at a concrete dependency-processing step
that intersects `b`'s entry `==1.5` with the new specifier `>=1.0`. -/
theorem c8_witness :
    dget (seedConstraints (prepareRequirements [("flask", [⟨SpecOp.eq, v10⟩])] ["b"]))
        (canonicalizeName "flask") = some [⟨SpecOp.eq, v10⟩]
    ∧ ∃ ext, dget [("b", [⟨SpecOp.eq, v15⟩, ⟨SpecOp.ge, v10⟩])] "b" =
        some (ssIntersect [⟨SpecOp.eq, v15⟩] ext) ∧
      ∀ v pre, ssContains (ssIntersect [⟨SpecOp.eq, v15⟩] ext) v pre = true →
        ssContains [⟨SpecOp.eq, v15⟩] v pre = true :=
  ⟨c8_fixed_entry_never_weakened.1 [("flask", [⟨SpecOp.eq, v10⟩])] ["b"]
      "flask" [⟨SpecOp.eq, v10⟩] (by rfl) (by decide) (by decide),
    c8_fixed_entry_never_weakened.2 [] [("b", [⟨SpecOp.ge, v10⟩])]
      [("b", [⟨SpecOp.eq, v15⟩])] [] [("b", [⟨SpecOp.eq, v15⟩, ⟨SpecOp.ge, v10⟩])] []
      "b" [⟨SpecOp.eq, v15⟩] (by rfl) (by rfl)⟩

/-- C9 (counterexample): the claim states the adapter treats the literal
token `null` in a metadata column as absent — `dependencies` should
return an empty sequence and `requires_python` should impose no
constraint.  On a row whose columns hold the token `null`,
`get_dependencies` returns the JSON `null` value itself (Python `None`,
not a list: src/db_client.py:84-88), and `requires_python` fails
specifier parsing inside `version_match`, making the release compatible
with **no** interpreter (src/db_client.py:48-53). -/
theorem c9_counterexample :
    dbGetDependencies storeNull "a" "1.0" = none ∧
    dbPythonSatisfies storeNull "a" "1.0" ⟨[3, 10], none⟩ = false := by
  exact ⟨rfl, rfl⟩

/-- C9 (amended): an absent release, an SQL `NULL` or an empty-string
column are treated as absent (empty dependency list, no interpreter
constraint); the literal token `null` is not — `dependencies` returns
the non-list `null` value and `requires_python` is treated as satisfied
by no interpreter. -/
theorem c9_null_token_not_absent (st : Store) (p v : String) (py : PVersion) :
    (findRelease st p v = none →
      dbGetDependencies st p v = some [] ∧ dbPythonSatisfies st p v py = true)
    ∧ (∀ r : Row, findRelease st p v = some r →
        ((r.requires_dist = .sqlNull ∨ r.requires_dist = .empty) →
          dbGetDependencies st p v = some [])
        ∧ (r.requires_dist = .nullTok → dbGetDependencies st p v = none)
        ∧ ((r.requires_python = .sqlNull ∨ r.requires_python = .empty) →
          dbPythonSatisfies st p v py = true)
        ∧ (r.requires_python = .nullTok → dbPythonSatisfies st p v py = false)) := by
  constructor
  · intro h
    unfold dbGetDependencies dbPythonSatisfies
    rw [h]
    exact ⟨rfl, rfl⟩
  · intro r h
    unfold dbGetDependencies dbPythonSatisfies
    rw [h]
    simp only []
    refine ⟨?_, ?_, ?_, ?_⟩
    · rintro (hd | hd) <;> rw [hd]
    · intro hd; rw [hd]
    · rintro (hp | hp) <;> rw [hp]
    · intro hp; rw [hp]

/-- C9 witness: the absent-release case and the SQL `NULL` and token
`null` columns at concrete stores. -/
theorem c9_witness :
    (dbGetDependencies storeNull "b" "9" = some [] ∧
      dbPythonSatisfies storeNull "b" "9" ⟨[3, 10], none⟩ = true)
    ∧ dbGetDependencies storeA "a" "1.0" = some []
    ∧ dbPythonSatisfies storeNull "a" "1.0" ⟨[3, 10], none⟩ = false :=
  ⟨(c9_null_token_not_absent storeNull "b" "9" ⟨[3, 10], none⟩).1 (by rfl),
    ((c9_null_token_not_absent storeA "a" "1.0" ⟨[3, 10], none⟩).2
      ⟨"a", "1.0", .sqlNull, .sqlNull, false⟩ (by rfl)).1 (Or.inl rfl),
    ((c9_null_token_not_absent storeNull "a" "1.0" ⟨[3, 10], none⟩).2
      ⟨"a", "1.0", .nullTok, .nullTok, false⟩ (by rfl)).2.2.2 rfl⟩

/-- C10 (counterexample): the claim states that when the assignment maps
`d` to a pre-release, every candidate depending on `d` is *rejected as
infeasible* — a caught `ConflictError` that lets the parent move to its
next candidate.  In this snapshot the candidate is never evaluated that
far: the loop aborts with the propagating `KeyError('version_str')`
before the dependency list is even fetched, which is an uncaught server
error, not a candidate rejection. -/
theorem c10_counterexample :
    tryCandidates storeC10 none (backtracking storeC10 none none 0)
      [("d", ⟨"d", v10a1, "1.0a1", false⟩)] [] "p" []
      [⟨"p", v10, "1.0", false⟩] none = .exc "version_str" := by
  rfl

/-- C10 (amended): the dependency-compatibility step of the candidate
loop (src/resolver.py:129-142) does reject, with a `ConflictError`,
every dependency list containing a requirement on a package whose
assigned version is a pre-release — regardless of the requirement's
specifier, because the check calls
`contains(assigned, prereleases=False)`, which rejects any pre-release
outright; in this snapshot the step is unreachable from `resolve`
because the `version_str` read fails first. -/
theorem c10_prerelease_assignment_rejects (assignments : Dict Candidate)
    (deps : List (String × SpecSet)) (constraints : Dict SpecSet)
    (adds : List String) (dn0 : String) (dspec : SpecSet) (cd : Candidate)
    (hmem : (dn0, dspec) ∈ deps)
    (hass : dget assignments (canonicalizeName dn0) = some cd)
    (hpre : cd.version_obj.isPre = true) :
    ∃ e, processDeps assignments deps constraints adds = .error e :=
  processDeps_prerelease_conflict assignments deps constraints adds
    dn0 dspec cd hmem hass hpre

/-- C10 witness: a concrete dependency on the pre-release-assigned `d`
whose specifier `>=1.0a0` admits the assigned version, still rejected. -/
theorem c10_witness :
    ∃ e, processDeps [("d", ⟨"d", v10a1, "1.0a1", false⟩)]
      [("d", [⟨SpecOp.ge, ⟨[1, 0], some 0⟩⟩])] [] [] = .error e :=
  c10_prerelease_assignment_rejects [("d", ⟨"d", v10a1, "1.0a1", false⟩)]
    [("d", [⟨SpecOp.ge, ⟨[1, 0], some 0⟩⟩])] [] [] "d"
    [⟨SpecOp.ge, ⟨[1, 0], some 0⟩⟩] ⟨"d", v10a1, "1.0a1", false⟩
    (List.mem_cons_self _ _) (by rfl) (by rfl)
